import Mathlib

/-!
Verification of the Fourier-property engine of `ActividadFormativa2SyS.py`.

Shallow embedding conventions:
* numpy double-precision arrays are modelled as `List ℝ` (exact real arithmetic,
  the idealisation the spec's "exact arithmetic" clauses refer to);
* complex spectra are `List ℂ`;
* `np.fft.fft` is modelled by its defining DFT sum (the spec treats the library
  FFT as a trusted primitive computing exactly that sum);
* `np.argsort` is modelled as a stable comparison sort of the index list
  (`List.mergeSort` with ties broken by index).  In every use below the keys
  are pairwise distinct, where every correct comparison sort produces the same
  permutation, so stability is irrelevant to the results;
* Python's `int()` conversion truncates toward zero, modelled by `pyInt`;
* `np.interp` (with `left=0`, `right=0`, as called in the source) is modelled
  by `npInterp`;
* `np.max` over a (nonempty) array is modelled by `npMax`.

Only the error value printed by each property verifier is embedded; plotting
is presentation-layer behaviour and out of scope.
-/

noncomputable section

open Complex

/-- Source `generar_pulso_rectangular` (lines 13–28): zero array with
`amplitud` assigned on the boolean mask `(t >= centro - ancho/2) & (t <= centro + ancho/2)`. -/
def generar_pulso_rectangular (t : List ℝ) (ancho amplitud centro : ℝ) : List ℝ :=
  t.map fun τ => if centro - ancho / 2 ≤ τ ∧ τ ≤ centro + ancho / 2 then amplitud else 0

/-- Source `generar_escalon` (lines 30–44): zero array with `amplitud` on the mask `t >= inicio`. -/
def generar_escalon (t : List ℝ) (amplitud inicio : ℝ) : List ℝ :=
  t.map fun τ => if inicio ≤ τ then amplitud else 0

/-- `np.fft.fft`: bin `k` holds `Σ_n s[n]·exp(−2πi·k·n/N)`. -/
def npFFT (s : List ℝ) : List ℂ :=
  (List.range s.length).map fun (k : ℕ) =>
    ∑ n ∈ Finset.range s.length,
      (s.getD n 0 : ℂ) * Complex.exp (-2 * Real.pi * Complex.I * k * n / s.length)

/-- `np.fft.fftfreq(N, dt)` at bin `k`: `k/(N·dt)` for `k ≤ (N−1)//2`, else `(k−N)/(N·dt)`. -/
def npFFTfreqVal (N : ℕ) (dt : ℝ) (k : ℕ) : ℝ :=
  if k ≤ (N - 1) / 2 then (k : ℝ) / (N * dt) else ((k : ℝ) - N) / (N * dt)

/-- `np.fft.fftfreq(N, dt)` as an array. -/
def npFFTfreq (N : ℕ) (dt : ℝ) : List ℝ :=
  (List.range N).map (npFFTfreqVal N dt)

/-- Comparison used to model `np.argsort`: order indices by key, breaking key
ties by index (stability; immaterial here since all keys used are distinct). -/
def argsortLE (xs : List ℝ) (i j : ℕ) : Bool :=
  decide (xs.getD i 0 < xs.getD j 0 ∨ (xs.getD i 0 = xs.getD j 0 ∧ i ≤ j))

/-- `np.argsort xs`: the permutation of `[0, …, len−1]` sorting `xs` ascending. -/
def npArgsort (xs : List ℝ) : List ℕ :=
  (List.range xs.length).mergeSort (argsortLE xs)

/-- Source `calcular_transformada_fourier` (lines 65–86): FFT scaled by `dt`,
`fftfreq` bins, both re-indexed by `np.argsort(frecuencias)`. -/
def calcular_transformada_fourier (senal_t : List ℝ) (dt : ℝ) : List ℝ × List ℂ :=
  let N := senal_t.length
  let espectro := (npFFT senal_t).map fun z => z * (dt : ℂ)
  let frecuencias := npFFTfreq N dt
  let idx := npArgsort frecuencias
  (idx.map fun i => frecuencias.getD i 0, idx.map fun i => espectro.getD i 0)

/-- `np.max` of a nonempty array (the verifiers only apply it to nonempty data). -/
def npMax : List ℝ → ℝ
  | [] => 0
  | x :: xs => xs.foldl max x

/-- Python `int()` on a real value: truncation toward zero. -/
def pyInt (x : ℝ) : ℤ :=
  if 0 ≤ x then ⌊x⌋ else ⌈x⌉

/-- `np.roll s m`: circular right-shift, `result[i] = s[(i − m) mod N]`. -/
def npRoll (s : List ℝ) (m : ℤ) : List ℝ :=
  (List.range s.length).map fun (i : ℕ) =>
    s.getD ((((i : ℤ) - m) % (s.length : ℤ)).toNat) 0

/-- The shifted signal built by `verificar_desplazamiento_tiempo` (line 190):
`np.roll(señal, int(desplazamiento/dt))`. -/
def senal_desplazada (senal : List ℝ) (dt desplazamiento : ℝ) : List ℝ :=
  npRoll senal (pyInt (desplazamiento / dt))

/-- Source `verificar_linealidad` (lines 139–165): with `a, b = 2, 3`, the
printed error `max |TF(a·s1 + b·s2) − (a·TF(s1) + b·TF(s2))|`. -/
def verificar_linealidad (t senal1 senal2 : List ℝ) (dt : ℝ) : ℝ :=
  let a : ℝ := 2
  let b : ℝ := 3
  let senal_combinada := List.zipWith (fun x y => a * x + b * y) senal1 senal2
  let espectro1 := (calcular_transformada_fourier senal1 dt).2
  let espectro2 := (calcular_transformada_fourier senal2 dt).2
  let espectro_combinada := (calcular_transformada_fourier senal_combinada dt).2
  let espectro_lineal := List.zipWith (fun z w => (a : ℂ) * z + (b : ℂ) * w) espectro1 espectro2
  npMax (List.zipWith (fun z w => Complex.abs (z - w)) espectro_combinada espectro_lineal)

/-- Source `verificar_desplazamiento_tiempo` (lines 179–202): the printed error
`max |TF(señal desplazada) − exp(−2πi·f·t0)·TF(señal)|`. -/
def verificar_desplazamiento_tiempo (t senal : List ℝ) (dt desplazamiento : ℝ) : ℝ :=
  let desplazada := senal_desplazada senal dt desplazamiento
  let frecuencias := (calcular_transformada_fourier senal dt).1
  let espectro := (calcular_transformada_fourier senal dt).2
  let espectro_desplazado := (calcular_transformada_fourier desplazada dt).2
  let espectro_teorico := List.zipWith
    (fun (f : ℝ) (z : ℂ) => Complex.exp (-2 * Complex.I * Real.pi * f * desplazamiento) * z)
    frecuencias espectro
  npMax (List.zipWith (fun z w => Complex.abs (z - w)) espectro_desplazado espectro_teorico)

/-- `np.interp x xp fp` with `left=0`, `right=0` (the only form the source
uses), for increasing `xp`: zero fill outside `[xp[0], xp[last]]`, linear
interpolation between neighbouring knots inside. -/
def npInterp (x : ℝ) : List ℝ → List ℝ → ℝ
  | [], _ => 0
  | _ :: _, [] => 0
  | [x0], y0 :: _ => if x < x0 then 0 else if x0 < x then 0 else y0
  | x0 :: x1 :: xs, y0 :: ys =>
    if x < x0 then 0
    else if x ≤ x1 then y0 + (ys.getD 0 0 - y0) * (x - x0) / (x1 - x0)
    else npInterp x (x1 :: xs) ys

/-- The time-scaled signal built by `verificar_escalamiento_frecuencia`
(lines 227–228): `np.interp(t, t*factor, señal, left=0, right=0)`. -/
def senal_escalada (t senal : List ℝ) (factor : ℝ) : List ℝ :=
  t.map fun τ => npInterp τ (t.map (· * factor)) senal

/-- Source `verificar_escalamiento_frecuencia` (lines 216–240): the printed
error `max | |TF(señal escalada)| − (1/|factor|)·interp(f, f·factor, |TF(señal)|) |`. -/
def verificar_escalamiento_frecuencia (t senal : List ℝ) (dt factor : ℝ) : ℝ :=
  let escalada := senal_escalada t senal factor
  let frecuencias := (calcular_transformada_fourier senal dt).1
  let espectro := (calcular_transformada_fourier senal dt).2
  let espectro_escalado := (calcular_transformada_fourier escalada dt).2
  let frecuencias_teoricas := frecuencias.map (· * factor)
  let espectro_teorico :=
    (frecuencias.map fun f => npInterp f frecuencias_teoricas (espectro.map Complex.abs)).map
      fun v => 1 / |factor| * v
  npMax (List.zipWith (fun z e => |Complex.abs z - e|) espectro_escalado espectro_teorico)

/-- Modelled from the spec (§4.3 frequency scaling): the prediction
`(1/|a|)·|transform(s)|` evaluated at scaled frequencies by linearly
interpolating the original spectrum's magnitude onto the frequency axis
multiplied by `a`, with zero fill outside range; the error is the maximum
absolute magnitude difference against `|transform(scaled(s))|`. -/
def error_escalamiento_spec (t senal : List ℝ) (dt factor : ℝ) : ℝ :=
  let frecuencias := (calcular_transformada_fourier senal dt).1
  let magnitudes := ((calcular_transformada_fourier senal dt).2).map Complex.abs
  let prediccion := frecuencias.map fun f =>
    1 / |factor| * npInterp f (frecuencias.map (· * factor)) magnitudes
  let empirico := ((calcular_transformada_fourier (senal_escalada t senal factor) dt).2).map
    Complex.abs
  npMax (List.zipWith (fun m p => |m - p|) empirico prediccion)

/-- The fixed time grid of `main` (line 261): `np.arange(-5, 5, 0.01)`,
i.e. the 1000 instants `−5 + n/100`. -/
def mainGrid : List ℝ :=
  (List.range 1000).map fun (n : ℕ) => -5 + (n : ℝ) / 100

/-- The complex spectral value the engine assigns to (unsorted) bin `k`:
`dt · Σ_n s[n]·exp(−2πi·k·n/N)`. -/
def espectroVal (s : List ℝ) (dt : ℝ) (k : ℕ) : ℂ :=
  (∑ n ∈ Finset.range s.length,
    (s.getD n 0 : ℂ) * Complex.exp (-2 * Real.pi * Complex.I * k * n / s.length)) * dt

end

section BaseLemmas

lemma npFFT_length (s : List ℝ) : (npFFT s).length = s.length := by
  rw [npFFT, List.length_map, List.length_range]

lemma npFFTfreq_length (N : ℕ) (dt : ℝ) : (npFFTfreq N dt).length = N := by
  simp [npFFTfreq]

lemma npFFTfreq_getD {N k : ℕ} (dt : ℝ) (hk : k < N) :
    (npFFTfreq N dt).getD k 0 = npFFTfreqVal N dt k := by
  rw [npFFTfreq, List.getD_eq_getElem _ _ (by simpa using hk), List.getElem_map,
    List.getElem_range]

lemma espectro_getD {s : List ℝ} (dt : ℝ) {k : ℕ} (hk : k < s.length) :
    ((npFFT s).map fun z => z * (dt : ℂ)).getD k 0 = espectroVal s dt k := by
  rw [List.getD_eq_getElem _ _ (by simpa [npFFT_length] using hk), List.getElem_map]
  simp only [npFFT, espectroVal, List.getElem_map, List.getElem_range]

lemma argsortLE_trans (xs : List ℝ) : ∀ a b c, argsortLE xs a b = true →
    argsortLE xs b c = true → argsortLE xs a c = true := by
  intro a b c hab hbc
  simp only [argsortLE, decide_eq_true_eq] at hab hbc ⊢
  rcases hab with h1 | ⟨h1, h1le⟩ <;> rcases hbc with h2 | ⟨h2, h2le⟩
  · exact Or.inl (h1.trans h2)
  · exact Or.inl (by rw [← h2]; exact h1)
  · exact Or.inl (by rw [h1]; exact h2)
  · exact Or.inr ⟨h1.trans h2, h1le.trans h2le⟩

lemma argsortLE_total (xs : List ℝ) :
    ∀ a b, (argsortLE xs a b || argsortLE xs b a) = true := by
  intro a b
  simp only [argsortLE, Bool.or_eq_true, decide_eq_true_eq]
  rcases lt_trichotomy (xs.getD a 0) (xs.getD b 0) with h | h | h
  · exact Or.inl (Or.inl h)
  · rcases Nat.le_total a b with hab | hab
    · exact Or.inl (Or.inr ⟨h, hab⟩)
    · exact Or.inr (Or.inr ⟨h.symm, hab⟩)
  · exact Or.inr (Or.inl h)

lemma npArgsort_perm (xs : List ℝ) : (npArgsort xs).Perm (List.range xs.length) :=
  List.mergeSort_perm _ _

lemma npArgsort_length (xs : List ℝ) : (npArgsort xs).length = xs.length := by
  simpa using (npArgsort_perm xs).length_eq

lemma npArgsort_sorted (xs : List ℝ) :
    List.Pairwise (fun i j => argsortLE xs i j = true) (npArgsort xs) :=
  List.sorted_mergeSort (argsortLE_trans xs) (argsortLE_total xs) _

lemma npArgsort_nodup (xs : List ℝ) : (npArgsort xs).Nodup :=
  ((npArgsort_perm xs).nodup_iff).mpr (List.nodup_range _)

lemma npArgsort_mem {xs : List ℝ} {i : ℕ} (h : i ∈ npArgsort xs) : i < xs.length := by
  simpa using (npArgsort_perm xs).mem_iff.mp h

lemma npArgsort_sorted_keys {xs : List ℝ}
    (hinj : ∀ i j, i < xs.length → j < xs.length → xs.getD i 0 = xs.getD j 0 → i = j) :
    List.Pairwise (fun i j => xs.getD i 0 < xs.getD j 0) (npArgsort xs) := by
  have hp := (npArgsort_sorted xs).and (npArgsort_nodup xs)
  refine hp.imp_of_mem ?_
  intro a b ha hb hab
  rcases hab with ⟨hle, hne⟩
  simp only [argsortLE, decide_eq_true_eq] at hle
  rcases hle with h | ⟨heq, _⟩
  · exact h
  · exact absurd (hinj a b (npArgsort_mem ha) (npArgsort_mem hb) heq) hne

lemma npFFTfreqVal_injOn {N : ℕ} {dt : ℝ} (hdt : dt ≠ 0) :
    ∀ i j, i < N → j < N → npFFTfreqVal N dt i = npFFTfreqVal N dt j → i = j := by
  intro i j hi hj h
  have hN0 : 0 < N := lt_of_le_of_lt (Nat.zero_le i) hi
  have hden : (N : ℝ) * dt ≠ 0 := mul_ne_zero (Nat.cast_ne_zero.mpr hN0.ne') hdt
  have hiR : (i : ℝ) < N := by exact_mod_cast hi
  have hjR : (j : ℝ) < N := by exact_mod_cast hj
  have hi0 : (0 : ℝ) ≤ i := Nat.cast_nonneg i
  have hj0 : (0 : ℝ) ≤ j := Nat.cast_nonneg j
  by_cases c1 : i ≤ (N - 1) / 2 <;> by_cases c2 : j ≤ (N - 1) / 2 <;>
      simp only [npFFTfreqVal, c1, c2, if_true, if_false] at h <;>
      rw [div_eq_div_iff hden hden] at h <;>
      have h2 := mul_right_cancel₀ hden h
  · exact_mod_cast h2
  · exact absurd h2 (by intro hc; linarith)
  · exact absurd h2 (by intro hc; linarith)
  · have : (i : ℝ) = j := by linarith
    exact_mod_cast this

lemma calcular_fst_length (s : List ℝ) (dt : ℝ) :
    (calcular_transformada_fourier s dt).1.length = s.length := by
  simp [calcular_transformada_fourier, npArgsort_length, npFFTfreq_length]

lemma calcular_snd_length (s : List ℝ) (dt : ℝ) :
    (calcular_transformada_fourier s dt).2.length = s.length := by
  simp [calcular_transformada_fourier, npArgsort_length, npFFTfreq_length]

/-- The unsorted bin that lands at sorted position `j` of the output.
Depends only on the signal length, not on its values. -/
noncomputable def sortIdx (N : ℕ) (dt : ℝ) (j : ℕ) : ℕ :=
  (npArgsort (npFFTfreq N dt)).getD j 0

lemma sortIdx_lt {N : ℕ} (dt : ℝ) {j : ℕ} (hj : j < N) : sortIdx N dt j < N := by
  have hlen : j < (npArgsort (npFFTfreq N dt)).length := by
    rw [npArgsort_length, npFFTfreq_length]; exact hj
  rw [sortIdx, List.getD_eq_getElem _ _ hlen]
  have := npArgsort_mem (List.getElem_mem hlen)
  rwa [npFFTfreq_length] at this

lemma sortIdx_surj {N : ℕ} (dt : ℝ) {k : ℕ} (hk : k < N) :
    ∃ j, j < N ∧ sortIdx N dt j = k := by
  have hmem : k ∈ npArgsort (npFFTfreq N dt) := by
    rw [(npArgsort_perm (npFFTfreq N dt)).mem_iff]
    simpa [npFFTfreq_length] using hk
  obtain ⟨j, hj, hget⟩ := List.mem_iff_getElem.mp hmem
  refine ⟨j, ?_, ?_⟩
  · rwa [npArgsort_length, npFFTfreq_length] at hj
  · rw [sortIdx, List.getD_eq_getElem _ _ hj, hget]

lemma calcular_fst_getD (s : List ℝ) (dt : ℝ) {j : ℕ} (hj : j < s.length) :
    (calcular_transformada_fourier s dt).1.getD j 0 =
      npFFTfreqVal s.length dt (sortIdx s.length dt j) := by
  have hlen : j < (npArgsort (npFFTfreq s.length dt)).length := by
    rw [npArgsort_length, npFFTfreq_length]; exact hj
  have hidx : (npArgsort (npFFTfreq s.length dt))[j] = sortIdx s.length dt j :=
    (List.getD_eq_getElem _ 0 hlen).symm
  show ((npArgsort (npFFTfreq s.length dt)).map
    fun i => (npFFTfreq s.length dt).getD i 0).getD j 0 = _
  rw [List.getD_eq_getElem _ _ (by simpa using hlen), List.getElem_map, hidx]
  exact npFFTfreq_getD dt (sortIdx_lt dt hj)

lemma calcular_snd_getD (s : List ℝ) (dt : ℝ) {j : ℕ} (hj : j < s.length) :
    (calcular_transformada_fourier s dt).2.getD j 0 =
      espectroVal s dt (sortIdx s.length dt j) := by
  have hlen : j < (npArgsort (npFFTfreq s.length dt)).length := by
    rw [npArgsort_length, npFFTfreq_length]; exact hj
  have hidx : (npArgsort (npFFTfreq s.length dt))[j] = sortIdx s.length dt j :=
    (List.getD_eq_getElem _ 0 hlen).symm
  show ((npArgsort (npFFTfreq s.length dt)).map
    fun i => ((npFFT s).map fun z => z * (dt : ℂ)).getD i 0).getD j 0 = _
  rw [List.getD_eq_getElem _ _ (by simpa using hlen), List.getElem_map, hidx]
  exact espectro_getD dt (sortIdx_lt dt hj)

/-- Reading every position of a list through `getD` reproduces the list. -/
lemma map_getD_range {α : Type} (l : List α) (d : α) :
    (List.range l.length).map (fun i => l.getD i d) = l := by
  apply List.ext_getElem
  · simp
  · intro i h1 h2
    rw [List.getElem_map, List.getElem_range, List.getD_eq_getElem _ _ h2]

/-- `np.max` of an all-zero array is `0`. -/
lemma foldl_max_zero : ∀ l : List ℝ, (∀ x ∈ l, x = 0) → l.foldl max 0 = 0
  | [], _ => rfl
  | x :: t, h => by
    rw [List.foldl_cons, h x (by simp), max_self]
    exact foldl_max_zero t fun y hy => h y (by simp [hy])

lemma npMax_zero (l : List ℝ) (h : ∀ x ∈ l, x = 0) : npMax l = 0 := by
  cases l with
  | nil => rfl
  | cons x t =>
    rw [npMax, h x (by simp)]
    exact foldl_max_zero t fun y hy => h y (by simp [hy])

lemma pyInt_intCast (m : ℤ) : pyInt (m : ℝ) = m := by
  rw [pyInt]
  split <;> simp

lemma npRoll_length (s : List ℝ) (m : ℤ) : (npRoll s m).length = s.length := by
  rw [npRoll, List.length_map, List.length_range]

lemma npRoll_getD (s : List ℝ) (m : ℤ) {i : ℕ} (hi : i < s.length) :
    (npRoll s m).getD i 0 = s.getD ((((i : ℤ) - m) % (s.length : ℤ)).toNat) 0 := by
  rw [npRoll, List.getD_eq_getElem _ _ (by simpa using hi), List.getElem_map,
    List.getElem_range]

end BaseLemmas

/-- C9: `generar_pulso_rectangular` returns a signal of the grid's length whose
value at sample `τ` is `amplitud` when `centro − ancho/2 ≤ τ ≤ centro + ancho/2`
and `0` otherwise; whenever the (nonempty-interval) endpoints lie exactly on the
grid they receive `amplitud` (closed interval). -/
theorem c9_pulso_rectangular (t : List ℝ) (ancho amplitud centro : ℝ) :
    (generar_pulso_rectangular t ancho amplitud centro).length = t.length ∧
    (∀ i, i < t.length →
      (generar_pulso_rectangular t ancho amplitud centro).getD i 0 =
        if centro - ancho / 2 ≤ t.getD i 0 ∧ t.getD i 0 ≤ centro + ancho / 2 then amplitud
        else 0) ∧
    (0 ≤ ancho → ∀ i, i < t.length →
      (t.getD i 0 = centro - ancho / 2 ∨ t.getD i 0 = centro + ancho / 2) →
      (generar_pulso_rectangular t ancho amplitud centro).getD i 0 = amplitud) := by
  have hpt : ∀ i, i < t.length →
      (generar_pulso_rectangular t ancho amplitud centro).getD i 0 =
        if centro - ancho / 2 ≤ t.getD i 0 ∧ t.getD i 0 ≤ centro + ancho / 2 then amplitud
        else 0 := by
    intro i hi
    rw [generar_pulso_rectangular, List.getD_eq_getElem _ _ (by simpa using hi),
      List.getElem_map, List.getD_eq_getElem _ _ hi]
  refine ⟨by simp [generar_pulso_rectangular], hpt, ?_⟩
  intro hw i hi hend
  rw [hpt i hi, if_pos]
  rcases hend with h | h <;> rw [h] <;> constructor <;> linarith

/-- Witness for C9: on the grid `[-1, 1]` with `ancho = 2`, `amplitud = 5`,
`centro = 0`, the left endpoint `−1` lies on the grid and receives `5`. -/
theorem c9_pulso_rectangular_witness :
    (generar_pulso_rectangular [-1, 1] 2 5 0).getD 0 0 = 5 :=
  (c9_pulso_rectangular [-1, 1] 2 5 0).2.2 (by norm_num) 0 (by norm_num)
    (Or.inl (by norm_num))

/-- C10: for strictly negative width the membership interval is empty, so the
generator returns the all-zero signal (of the grid's length). -/
theorem c10_pulso_ancho_negativo (t : List ℝ) (ancho amplitud centro : ℝ)
    (h : ancho < 0) :
    (generar_pulso_rectangular t ancho amplitud centro).length = t.length ∧
    ∀ x ∈ generar_pulso_rectangular t ancho amplitud centro, x = 0 := by
  refine ⟨by simp [generar_pulso_rectangular], ?_⟩
  intro x hx
  rw [generar_pulso_rectangular, List.mem_map] at hx
  obtain ⟨τ, -, hτ⟩ := hx
  rw [← hτ, if_neg]
  rintro ⟨h1, h2⟩
  linarith

/-- Witness for C10: width `−1` on the grid `[0]` yields the zero signal. -/
theorem c10_pulso_ancho_negativo_witness :
    ((-1 : ℝ) < 0) ∧ ∀ x ∈ generar_pulso_rectangular [0] (-1) 5 0, x = 0 :=
  ⟨by norm_num, (c10_pulso_ancho_negativo [0] (-1) 5 0 (by norm_num)).2⟩

/-- C1: before re-sorting, `calcular_transformada_fourier` assigns bin `k` the
spectral value `dt · Σ_n señal[n]·exp(−i·2π·k·n/N)` and the frequency
`k/(N·dt)` when `k < N/2`, `(k−N)/(N·dt)` when `k ≥ N/2`. -/
theorem c1_transformada_bins (s : List ℝ) (dt : ℝ) (k : ℕ) (hdt : 0 < dt)
    (hk : k < s.length) :
    ((npFFT s).map fun z => z * (dt : ℂ)).getD k 0 =
      (dt : ℂ) * ∑ n ∈ Finset.range s.length,
        (s.getD n 0 : ℂ) * Complex.exp (-Complex.I * (2 * Real.pi) * k * n / s.length) ∧
    (npFFTfreq s.length dt).getD k 0 =
      if (k : ℝ) < (s.length : ℝ) / 2 then (k : ℝ) / (s.length * dt)
      else ((k : ℝ) - s.length) / (s.length * dt) := by
  have hN : 0 < s.length := lt_of_le_of_lt (Nat.zero_le k) hk
  constructor
  · rw [espectro_getD dt hk, espectroVal, mul_comm]
    congr 1
    refine Finset.sum_congr rfl fun n _ => ?_
    congr 2
    ring
  · rw [npFFTfreq_getD dt hk, npFFTfreqVal]
    have hcast : ((k : ℝ) * 2 < (s.length : ℝ)) ↔ (k * 2 < s.length) := by
      exact_mod_cast Iff.rfl
    have hcond : (k ≤ (s.length - 1) / 2) ↔ ((k : ℝ) < (s.length : ℝ) / 2) := by
      rw [lt_div_iff (by norm_num : (0:ℝ) < 2), hcast]
      omega
    exact if_congr hcond rfl rfl

/-- Witness for C1 at the signal `[1, 0]`, `dt = 1`, bin `k = 1`: the second
(negative-frequency) bin receives frequency `−1/2`. -/
theorem c1_transformada_bins_witness :
    (0 : ℝ) < 1 ∧ (npFFTfreq 2 1).getD 1 0 = -(1 / 2) := by
  refine ⟨by norm_num, ?_⟩
  have h := (c1_transformada_bins [1, 0] 1 1 (by norm_num) (by norm_num)).2
  norm_num at h
  simpa using h

/-- C7: the returned frequency array is strictly ascending, both returned
arrays have the signal's length, and the list of (frequency, value) pairs is a
permutation of the unsorted transform's pairs — the spectrum is permuted by
exactly the permutation that sorts the frequencies. -/
theorem c7_invariantes_orden (s : List ℝ) (dt : ℝ) (hs : s ≠ []) (hdt : 0 < dt) :
    (calcular_transformada_fourier s dt).1.length = s.length ∧
    (calcular_transformada_fourier s dt).2.length = s.length ∧
    List.Pairwise (· < ·) (calcular_transformada_fourier s dt).1 ∧
    ((calcular_transformada_fourier s dt).1.zip
        (calcular_transformada_fourier s dt).2).Perm
      ((List.range s.length).map fun k =>
        (npFFTfreqVal s.length dt k, espectroVal s dt k)) := by
  have hinj : ∀ i j, i < (npFFTfreq s.length dt).length →
      j < (npFFTfreq s.length dt).length →
      (npFFTfreq s.length dt).getD i 0 = (npFFTfreq s.length dt).getD j 0 → i = j := by
    intro i j hi hj h
    rw [npFFTfreq_length] at hi hj
    rw [npFFTfreq_getD dt hi, npFFTfreq_getD dt hj] at h
    exact npFFTfreqVal_injOn hdt.ne' i j hi hj h
  refine ⟨calcular_fst_length s dt, calcular_snd_length s dt, ?_, ?_⟩
  · show List.Pairwise (· < ·) ((npArgsort (npFFTfreq s.length dt)).map
      fun i => (npFFTfreq s.length dt).getD i 0)
    rw [List.pairwise_map]
    exact npArgsort_sorted_keys hinj
  · show (((npArgsort (npFFTfreq s.length dt)).map
      fun i => (npFFTfreq s.length dt).getD i 0).zip
      ((npArgsort (npFFTfreq s.length dt)).map fun i =>
        ((npFFT s).map fun z => z * (dt : ℂ)).getD i 0)).Perm _
    rw [List.zip_map']
    have hperm := (npArgsort_perm (npFFTfreq s.length dt)).map
      (fun i => ((npFFTfreq s.length dt).getD i 0,
        ((npFFT s).map fun z => z * (dt : ℂ)).getD i 0))
    rw [npFFTfreq_length] at hperm
    refine hperm.trans ?_
    have heq : (List.range s.length).map
        (fun i => ((npFFTfreq s.length dt).getD i 0,
          ((npFFT s).map fun z => z * (dt : ℂ)).getD i 0)) =
        (List.range s.length).map
          (fun k => (npFFTfreqVal s.length dt k, espectroVal s dt k)) := by
      refine List.map_congr_left fun k hk => ?_
      rw [List.mem_range] at hk
      rw [npFFTfreq_getD dt hk, espectro_getD dt hk]
    exact heq ▸ List.Perm.refl _

/-- Witness for C7 at the signal `[1, 0]`, `dt = 1`: the returned frequency
array is strictly ascending. -/
theorem c7_invariantes_orden_witness :
    ([1, 0] : List ℝ) ≠ [] ∧ (0 : ℝ) < 1 ∧
      List.Pairwise (· < ·) (calcular_transformada_fourier [1, 0] 1).1 :=
  ⟨by simp, by norm_num, (c7_invariantes_orden [1, 0] 1 (by simp) (by norm_num)).2.2.1⟩

section OmegaLemmas

/-- The base root of unity `exp(−2πi/N)` underlying the DFT sums. -/
noncomputable def dftOmega (N : ℕ) : ℂ := Complex.exp (-2 * Real.pi * Complex.I / N)

lemma dftOmega_ne_zero (N : ℕ) : dftOmega N ≠ 0 := Complex.exp_ne_zero _

lemma dftOmega_zpow (N : ℕ) (a : ℤ) :
    dftOmega N ^ a = Complex.exp (-2 * Real.pi * Complex.I * a / N) := by
  rw [dftOmega, ← Complex.exp_int_mul]
  congr 1
  ring

lemma dftOmega_pow_nat (N : ℕ) (a : ℕ) :
    dftOmega N ^ a = Complex.exp (-2 * Real.pi * Complex.I * a / N) := by
  have h := dftOmega_zpow N a
  rw [zpow_natCast] at h
  rw [h]
  norm_num

lemma dftOmega_inv (N : ℕ) : (dftOmega N)⁻¹ = Complex.exp (2 * Real.pi * Complex.I / N) := by
  rw [dftOmega, ← Complex.exp_neg]
  congr 1
  ring

lemma dftOmega_isPrimitiveRoot {N : ℕ} (hN : N ≠ 0) : IsPrimitiveRoot (dftOmega N) N := by
  have h := (Complex.isPrimitiveRoot_exp N hN).inv
  rw [← dftOmega_inv, inv_inv] at h
  exact h

lemma dftOmega_zpow_eq_one_iff {N : ℕ} (hN : N ≠ 0) (d : ℤ) :
    dftOmega N ^ d = 1 ↔ (N : ℤ) ∣ d :=
  (dftOmega_isPrimitiveRoot hN).zpow_eq_one_iff_dvd d

lemma dftOmega_pow_N {N : ℕ} (hN : N ≠ 0) : dftOmega N ^ (N : ℤ) = 1 :=
  (dftOmega_zpow_eq_one_iff hN N).mpr dvd_rfl

lemma dftOmega_zpow_emod {N : ℕ} (hN : N ≠ 0) (a : ℤ) :
    dftOmega N ^ a = dftOmega N ^ (a % (N : ℤ)) := by
  conv_lhs => rw [← Int.ediv_add_emod a N]
  rw [zpow_add₀ (dftOmega_ne_zero N), zpow_mul, dftOmega_pow_N hN, one_zpow, one_mul]

lemma dftOmega_zpow_congr {N : ℕ} (hN : N ≠ 0) {a b : ℤ} (h : a % N = b % N) :
    dftOmega N ^ a = dftOmega N ^ b := by
  rw [dftOmega_zpow_emod hN a, dftOmega_zpow_emod hN b, h]

lemma conj_dftOmega : (starRingEnd ℂ) (dftOmega N) = (dftOmega N)⁻¹ := by
  rw [dftOmega_inv, dftOmega, ← Complex.exp_conj]
  congr 1
  simp [map_div₀, map_ofNat, Complex.conj_I]
  try ring

lemma conj_dftOmega_pow (N a : ℕ) :
    (starRingEnd ℂ) (dftOmega N ^ a) = dftOmega N ^ (-(a : ℤ)) := by
  rw [zpow_neg, zpow_natCast, ← inv_pow, map_pow, conj_dftOmega]

end OmegaLemmas

section ModularLemmas

lemma emod_sub_add (x m N : ℤ) : ((x - m) % N + m) % N = x % N := by
  rw [Int.add_emod, Int.emod_emod_of_dvd _ dvd_rfl, ← Int.add_emod, sub_add_cancel]

lemma emod_add_sub (x m N : ℤ) : ((x + m) % N - m) % N = x % N := by
  rw [Int.sub_emod, Int.emod_emod_of_dvd _ dvd_rfl, ← Int.sub_emod, add_sub_cancel_right]

lemma int_mul_emod_congr {N a b : ℤ} (k : ℤ) (h : a % N = b % N) :
    (k * a) % N = (k * b) % N := by
  rw [Int.mul_emod, h, ← Int.mul_emod]

end ModularLemmas

section ShiftLemmas

lemma espectroVal_eq_omega (s : List ℝ) (dt : ℝ) (k : ℕ) :
    espectroVal s dt k =
      (∑ n ∈ Finset.range s.length,
        (s.getD n 0 : ℂ) * dftOmega s.length ^ (k * n)) * dt := by
  rw [espectroVal]
  congr 1
  refine Finset.sum_congr rfl fun n _ => ?_
  rw [dftOmega_pow_nat]
  congr 2
  push_cast
  ring

lemma espectroVal_npRoll {s : List ℝ} (hs : s ≠ []) (dt : ℝ) (m : ℤ) (k : ℕ) :
    espectroVal (npRoll s m) dt k =
      dftOmega s.length ^ ((k : ℤ) * m) * espectroVal s dt k := by
  have hN : s.length ≠ 0 := fun hc => hs (List.length_eq_zero.mp hc)
  have hNz : ((s.length : ℤ)) ≠ 0 := by exact_mod_cast hN
  have hNpos : (0 : ℤ) < s.length := by
    exact_mod_cast Nat.pos_of_ne_zero hN
  have hroll : (npRoll s m).length = s.length := npRoll_length s m
  rw [espectroVal_eq_omega, espectroVal_eq_omega, hroll]
  have key : ∑ i ∈ Finset.range s.length,
      ((npRoll s m).getD i 0 : ℂ) * dftOmega s.length ^ (k * i) =
      ∑ j ∈ Finset.range s.length,
        (s.getD j 0 : ℂ) * dftOmega s.length ^ ((k : ℤ) * ((j : ℤ) + m)) := by
    refine Finset.sum_nbij' (fun i => ((((i : ℤ) - m) % (s.length : ℤ)).toNat)
      )
      (fun j => ((((j : ℤ) + m) % (s.length : ℤ)).toNat)) ?_ ?_ ?_ ?_ ?_
    · intro i _
      show ((((i : ℤ) - m) % (s.length : ℤ)).toNat) ∈ Finset.range s.length
      rw [Finset.mem_range, Int.toNat_lt (Int.emod_nonneg _ hNz)]
      exact Int.emod_lt_of_pos _ hNpos
    · intro j _
      show ((((j : ℤ) + m) % (s.length : ℤ)).toNat) ∈ Finset.range s.length
      rw [Finset.mem_range, Int.toNat_lt (Int.emod_nonneg _ hNz)]
      exact Int.emod_lt_of_pos _ hNpos
    · intro i hi
      rw [Finset.mem_range] at hi
      show ((((((((i : ℤ) - m) % (s.length : ℤ)).toNat : ℕ) : ℤ) + m) %
        (s.length : ℤ)).toNat) = i
      rw [Int.toNat_of_nonneg (Int.emod_nonneg _ hNz), emod_sub_add,
        Int.emod_eq_of_lt (by positivity) (by exact_mod_cast hi), Int.toNat_natCast]
    · intro j hj
      rw [Finset.mem_range] at hj
      show ((((((((j : ℤ) + m) % (s.length : ℤ)).toNat : ℕ) : ℤ) - m) %
        (s.length : ℤ)).toNat) = j
      rw [Int.toNat_of_nonneg (Int.emod_nonneg _ hNz), emod_add_sub,
        Int.emod_eq_of_lt (by positivity) (by exact_mod_cast hj), Int.toNat_natCast]
    · intro i hi
      rw [Finset.mem_range] at hi
      show ((npRoll s m).getD i 0 : ℂ) * dftOmega s.length ^ (k * i) =
        (s.getD ((((i : ℤ) - m) % (s.length : ℤ)).toNat) 0 : ℂ) *
          dftOmega s.length ^
            ((k : ℤ) * ((((((i : ℤ) - m) % (s.length : ℤ)).toNat : ℕ) : ℤ) + m))
      rw [npRoll_getD s m hi]
      congr 1
      rw [← zpow_natCast]
      refine dftOmega_zpow_congr hN ?_
      have h2 : (((((((i : ℤ) - m) % (s.length : ℤ)).toNat : ℕ) : ℤ)) + m) % (s.length : ℤ) =
          (i : ℤ) % (s.length : ℤ) := by
        rw [Int.toNat_of_nonneg (Int.emod_nonneg _ hNz), emod_sub_add]
      have h3 := (int_mul_emod_congr (k : ℤ) h2).symm
      push_cast
      exact h3
  rw [key]
  have expand : ∀ j ∈ Finset.range s.length,
      (s.getD j 0 : ℂ) * dftOmega s.length ^ ((k : ℤ) * ((j : ℤ) + m)) =
      ((s.getD j 0 : ℂ) * dftOmega s.length ^ (k * j)) * dftOmega s.length ^ ((k : ℤ) * m) := by
    intro j _
    rw [mul_add ((k : ℤ)), zpow_add₀ (dftOmega_ne_zero _)]
    rw [show ((k : ℤ) * (j : ℤ)) = ((k * j : ℕ) : ℤ) by push_cast; ring, zpow_natCast]
    ring
  rw [Finset.sum_congr rfl expand, ← Finset.sum_mul]
  ring

end ShiftLemmas

section FactorTeorico

lemma factor_teorico_eq {N : ℕ} (hN : N ≠ 0) {dt : ℝ} (hdt : dt ≠ 0) (m : ℤ) {k : ℕ}
    (hk : k < N) :
    Complex.exp (-2 * Complex.I * Real.pi * (npFFTfreqVal N dt k : ℝ) * (((m : ℝ) * dt : ℝ) : ℂ)) =
      dftOmega N ^ ((k : ℤ) * m) := by
  have hNC : (N : ℂ) ≠ 0 := Nat.cast_ne_zero.mpr hN
  have hdtC : ((dt : ℝ) : ℂ) ≠ 0 := Complex.ofReal_ne_zero.mpr hdt
  rw [npFFTfreqVal]
  by_cases hc : k ≤ (N - 1) / 2
  · rw [if_pos hc, dftOmega_zpow]
    congr 1
    push_cast
    field_simp
    ring
  · rw [if_neg hc]
    have h1 : Complex.exp (-2 * Complex.I * Real.pi *
        ((((k : ℝ) - N) / (N * dt) : ℝ) : ℂ) * (((m : ℝ) * dt : ℝ) : ℂ)) =
        dftOmega N ^ (((k : ℤ) - N) * m) := by
      rw [dftOmega_zpow]
      congr 1
      push_cast
      field_simp
      ring
    rw [h1]
    refine dftOmega_zpow_congr hN ?_
    have h2 : ((k : ℤ) - N) * m = (k : ℤ) * m + (-m) * N := by ring
    rw [h2, Int.add_mul_emod_self]

end FactorTeorico

/-- C6: when the shift is an exact number of samples `t0 = m·dt`, the time-shift
verifier's error `max |TF(roll(s, m)) − exp(−2πi·f·t0)·TF(s)|` is exactly zero:
the circular-shift theorem for the DFT holds bin by bin. -/
theorem c6_desplazamiento_error_cero (t s : List ℝ) (dt t0 : ℝ) (m : ℤ)
    (hs : s ≠ []) (hdt : 0 < dt) (ht0 : t0 = (m : ℝ) * dt) :
    verificar_desplazamiento_tiempo t s dt t0 = 0 := by
  have hN : s.length ≠ 0 := fun hc => hs (List.length_eq_zero.mp hc)
  have hm : pyInt (t0 / dt) = m := by
    rw [ht0, mul_div_cancel_right₀ _ hdt.ne', pyInt_intCast]
  have hd_eq : senal_desplazada s dt t0 = npRoll s m := by
    rw [senal_desplazada, hm]
  have hd_len : (senal_desplazada s dt t0).length = s.length := by
    rw [hd_eq, npRoll_length]
  simp only [verificar_desplazamiento_tiempo]
  apply npMax_zero
  intro x hx
  rw [List.mem_iff_getElem] at hx
  obtain ⟨j, hjlen, hx⟩ := hx
  have hjN : j < s.length := by
    rw [List.length_zipWith, calcular_snd_length, hd_len, List.length_zipWith,
      calcular_fst_length, calcular_snd_length, min_self, min_self] at hjlen
    exact hjlen
  rw [← hx, List.getElem_zipWith, List.getElem_zipWith]
  have hjd : j < (senal_desplazada s dt t0).length := by rwa [hd_len]
  rw [← List.getD_eq_getElem (calcular_transformada_fourier (senal_desplazada s dt t0) dt).2 0
      (show j < (calcular_transformada_fourier (senal_desplazada s dt t0) dt).2.length by
        rw [calcular_snd_length, hd_len]; exact hjN),
    ← List.getD_eq_getElem (calcular_transformada_fourier s dt).1 0
      (show j < (calcular_transformada_fourier s dt).1.length by
        rw [calcular_fst_length]; exact hjN),
    ← List.getD_eq_getElem (calcular_transformada_fourier s dt).2 0
      (show j < (calcular_transformada_fourier s dt).2.length by
        rw [calcular_snd_length]; exact hjN)]
  rw [calcular_snd_getD _ dt hjd, hd_len, calcular_fst_getD s dt hjN,
    calcular_snd_getD s dt hjN]
  rw [hd_eq, espectroVal_npRoll hs dt m, ht0,
    factor_teorico_eq hN hdt.ne' m (sortIdx_lt dt hjN), sub_self, map_zero]

/-- Witness for C6: signal `[1, 0]`, `dt = 1`, shift `t0 = 1·dt`; the verifier
error is exactly zero. -/
theorem c6_desplazamiento_error_cero_witness :
    ([1, 0] : List ℝ) ≠ [] ∧ (0 : ℝ) < 1 ∧ (1 : ℝ) = ((1 : ℤ) : ℝ) * 1 ∧
      verificar_desplazamiento_tiempo [] [1, 0] 1 1 = 0 :=
  ⟨by simp, by norm_num, by norm_num,
    c6_desplazamiento_error_cero [] [1, 0] 1 1 1 (by simp) (by norm_num) (by norm_num)⟩

/-- C2 (amended): the signal which the time-shift verifier transforms is the
circular (wrap-around) shift of `s` by `int(t0/dt)` samples — Python `int()`
truncation toward zero, not `round` — expressed through `List.rotate`. -/
theorem c2_desplazamiento_trunc (s : List ℝ) (dt t0 : ℝ) :
    senal_desplazada s dt t0 =
      s.rotate ((-(pyInt (t0 / dt)) % (s.length : ℤ)).toNat) := by
  rcases eq_or_ne s [] with rfl | hs
  · simp [senal_desplazada, npRoll]
  · have hN : s.length ≠ 0 := fun hc => hs (List.length_eq_zero.mp hc)
    have hNpos : 0 < s.length := Nat.pos_of_ne_zero hN
    have hNz : ((s.length : ℤ)) ≠ 0 := by exact_mod_cast hN
    apply List.ext_getElem
    · rw [senal_desplazada, npRoll_length, List.length_rotate]
    · intro i h1 h2
      have hiN : i < s.length := by rwa [senal_desplazada, npRoll_length] at h1
      rw [List.getElem_rotate, ← List.getD_eq_getElem _ 0 h1, senal_desplazada,
        npRoll_getD s _ hiN]
      have hr : (((-(pyInt (t0 / dt)) % (s.length : ℤ)).toNat : ℕ) : ℤ) =
          -(pyInt (t0 / dt)) % (s.length : ℤ) :=
        Int.toNat_of_nonneg (Int.emod_nonneg _ hNz)
      have hidx : (((i : ℤ) - pyInt (t0 / dt)) % (s.length : ℤ)).toNat =
          (i + (-(pyInt (t0 / dt)) % (s.length : ℤ)).toNat) % s.length := by
        have hcast : (((i + (-(pyInt (t0 / dt)) % (s.length : ℤ)).toNat) % s.length : ℕ) : ℤ) =
            ((i : ℤ) - pyInt (t0 / dt)) % (s.length : ℤ) := by
          push_cast [hr]
          rw [Int.add_emod, Int.emod_emod_of_dvd _ dvd_rfl, ← Int.add_emod,
            ← sub_eq_add_neg]
        have := congrArg Int.toNat hcast
        rw [Int.toNat_natCast] at this
        exact this.symm
      rw [hidx, List.getD_eq_getElem _ 0 (Nat.mod_lt _ hNpos)]

/-- Witness for C2's amended statement at `s = [1, 2, 3]`, `dt = 1`,
`t0 = 5/2`: truncation shifts by 2 samples. -/
theorem c2_desplazamiento_trunc_witness :
    senal_desplazada [1, 2, 3] 1 (5 / 2) =
      ([1, 2, 3] : List ℝ).rotate ((-(pyInt ((5 / 2 : ℝ) / 1)) % ((3 : ℕ) : ℤ)).toNat) :=
  c2_desplazamiento_trunc [1, 2, 3] 1 (5 / 2)

/-- Counterexample to C2 as stated: at `s = [1,0,0,0]`, `dt = 1`, `t0 = 2.7`
the verifier shifts by `int(2.7) = 2` samples, not by `round(2.7) = 3`. -/
theorem c2_desplazamiento_counterexample :
    senal_desplazada [1, 0, 0, 0] 1 (27 / 10) ≠
      npRoll [1, 0, 0, 0] (round ((27 / 10 : ℝ) / 1)) := by
  have hpy : pyInt ((27 / 10 : ℝ) / 1) = 2 := by
    rw [div_one, pyInt, if_pos (by norm_num)]
    norm_num
  have hrd : round ((27 / 10 : ℝ) / 1) = 3 := by
    rw [div_one, round_eq]
    norm_num
  have hrange : List.range 4 = [0, 1, 2, 3] := rfl
  rw [senal_desplazada, hpy, hrd]
  intro hcontra
  have h4 : (npRoll [1, 0, 0, 0] 2).length = 4 := by
    rw [npRoll_length]
    rfl
  have hL : (npRoll ([1, 0, 0, 0] : List ℝ) 2).getD 2 0 = 1 := by
    rw [npRoll_getD _ _ (by rw [show ([1,0,0,0] : List ℝ).length = 4 from rfl]; omega)]
    norm_num [List.getD]
  have hR : (npRoll ([1, 0, 0, 0] : List ℝ) 3).getD 2 0 = 0 := by
    rw [npRoll_getD _ _ (by rw [show ([1,0,0,0] : List ℝ).length = 4 from rfl]; omega)]
    norm_num [List.getD, show ((3 : ℤ)).toNat = 3 from rfl]
  rw [hcontra, hR] at hL
  norm_num at hL

section LinealidadLemmas

lemma espectroVal_linear (a b : ℝ) (s1 s2 : List ℝ) (dt : ℝ)
    (h : s1.length = s2.length) (k : ℕ) :
    espectroVal (List.zipWith (fun x y => a * x + b * y) s1 s2) dt k =
      (a : ℂ) * espectroVal s1 dt k + (b : ℂ) * espectroVal s2 dt k := by
  have hlen : (List.zipWith (fun x y => a * x + b * y) s1 s2).length = s1.length := by
    rw [List.length_zipWith, ← h, min_self]
  have hgetD : ∀ n, n < s1.length →
      (List.zipWith (fun x y => a * x + b * y) s1 s2).getD n 0 =
        a * s1.getD n 0 + b * s2.getD n 0 := by
    intro n hn
    rw [List.getD_eq_getElem _ _ (by rw [hlen]; exact hn), List.getElem_zipWith,
      List.getD_eq_getElem _ _ hn, List.getD_eq_getElem _ _ (by rw [← h]; exact hn)]
  rw [espectroVal, espectroVal, espectroVal, hlen, ← h]
  have hterm : ∀ n ∈ Finset.range s1.length,
      ((List.zipWith (fun x y => a * x + b * y) s1 s2).getD n 0 : ℂ) *
        Complex.exp (-2 * Real.pi * Complex.I * k * n / s1.length) =
      (a : ℂ) * ((s1.getD n 0 : ℂ) *
        Complex.exp (-2 * Real.pi * Complex.I * k * n / s1.length)) +
      (b : ℂ) * ((s2.getD n 0 : ℂ) *
        Complex.exp (-2 * Real.pi * Complex.I * k * n / s1.length)) := by
    intro n hn
    rw [hgetD n (Finset.mem_range.mp hn)]
    push_cast
    ring
  rw [Finset.sum_congr rfl hterm, Finset.sum_add_distrib, ← Finset.mul_sum, ← Finset.mul_sum]
  ring

end LinealidadLemmas

/-- C5: the discrete transform is linear — for any real coefficients the
spectrum of `a·s1 + b·s2` is the pointwise combination of the spectra — and in
particular the linearity verifier (which fixes `a = 2`, `b = 3`) reports an
error of exactly zero. -/
theorem c5_linealidad (a b : ℝ) (t s1 s2 : List ℝ) (dt : ℝ)
    (hlen : s1.length = s2.length) (hs : s1 ≠ []) (hdt : 0 < dt) :
    (∀ k, espectroVal (List.zipWith (fun x y => a * x + b * y) s1 s2) dt k =
      (a : ℂ) * espectroVal s1 dt k + (b : ℂ) * espectroVal s2 dt k) ∧
    verificar_linealidad t s1 s2 dt = 0 := by
  refine ⟨fun k => espectroVal_linear a b s1 s2 dt hlen k, ?_⟩
  have hcomb : (List.zipWith (fun x y => (2 : ℝ) * x + (3 : ℝ) * y) s1 s2).length =
      s1.length := by
    rw [List.length_zipWith, ← hlen, min_self]
  simp only [verificar_linealidad]
  apply npMax_zero
  intro x hx
  rw [List.mem_iff_getElem] at hx
  obtain ⟨j, hjlen, hx⟩ := hx
  have hjN : j < s1.length := by
    rw [List.length_zipWith, calcular_snd_length, hcomb, List.length_zipWith,
      calcular_snd_length, calcular_snd_length, ← hlen, min_self, min_self] at hjlen
    exact hjlen
  rw [← hx, List.getElem_zipWith, List.getElem_zipWith]
  rw [← List.getD_eq_getElem (calcular_transformada_fourier
      (List.zipWith (fun x y => (2 : ℝ) * x + (3 : ℝ) * y) s1 s2) dt).2 0
      (show j < (calcular_transformada_fourier
        (List.zipWith (fun x y => (2 : ℝ) * x + (3 : ℝ) * y) s1 s2) dt).2.length by
        rw [calcular_snd_length, hcomb]; exact hjN),
    ← List.getD_eq_getElem (calcular_transformada_fourier s1 dt).2 0
      (show j < (calcular_transformada_fourier s1 dt).2.length by
        rw [calcular_snd_length]; exact hjN),
    ← List.getD_eq_getElem (calcular_transformada_fourier s2 dt).2 0
      (show j < (calcular_transformada_fourier s2 dt).2.length by
        rw [calcular_snd_length, ← hlen]; exact hjN)]
  rw [calcular_snd_getD _ dt (show j <
      (List.zipWith (fun x y => (2 : ℝ) * x + (3 : ℝ) * y) s1 s2).length by
      rw [hcomb]; exact hjN), hcomb,
    calcular_snd_getD s1 dt hjN,
    calcular_snd_getD s2 dt (show j < s2.length by rw [← hlen]; exact hjN), ← hlen]
  rw [espectroVal_linear 2 3 s1 s2 dt hlen, sub_self, map_zero]

/-- Witness for C5 at `a = 2`, `b = 3`, `s1 = [1, 0]`, `s2 = [0, 1]`, `dt = 1`:
the verifier error is exactly zero. -/
theorem c5_linealidad_witness :
    ([1, 0] : List ℝ).length = ([0, 1] : List ℝ).length ∧ ([1, 0] : List ℝ) ≠ [] ∧
      (0 : ℝ) < 1 ∧ verificar_linealidad [] [1, 0] [0, 1] 1 = 0 :=
  ⟨rfl, by simp, by norm_num,
    (c5_linealidad 2 3 [] [1, 0] [0, 1] 1 rfl (by simp) (by norm_num)).2⟩

section ParsevalLemmas

lemma geom_orthogonality {N : ℕ} (hN : N ≠ 0) {n m : ℕ} (hn : n < N) (hm : m < N) :
    ∑ k ∈ Finset.range N, (dftOmega N ^ ((n : ℤ) - (m : ℤ))) ^ k =
      if n = m then (N : ℂ) else 0 := by
  by_cases h : n = m
  · subst h
    rw [if_pos rfl]
    simp [sub_self]
  · rw [if_neg h]
    have hzN : (dftOmega N ^ ((n : ℤ) - (m : ℤ))) ^ N = 1 := by
      rw [← zpow_natCast, ← zpow_mul, mul_comm, zpow_mul, dftOmega_pow_N hN, one_zpow]
    have hz1 : dftOmega N ^ ((n : ℤ) - (m : ℤ)) ≠ 1 := by
      intro hc
      obtain ⟨c, hc2⟩ := (dftOmega_zpow_eq_one_iff hN _).mp hc
      have hne : (n : ℤ) - m ≠ 0 := sub_ne_zero.mpr (by exact_mod_cast h)
      have h1 : (n : ℤ) - m < N := by
        have : (n : ℤ) < N := by exact_mod_cast hn
        have : (0 : ℤ) ≤ m := Int.ofNat_nonneg m
        omega
      have h2 : -(N : ℤ) < (n : ℤ) - m := by
        have : (m : ℤ) < N := by exact_mod_cast hm
        have : (0 : ℤ) ≤ n := Int.ofNat_nonneg n
        omega
      rcases lt_trichotomy c 0 with hc0 | hc0 | hc0
      · have hle : c ≤ -1 := by omega
        have : (N : ℤ) * c ≤ (N : ℤ) * (-1) :=
          mul_le_mul_of_nonneg_left hle (Int.ofNat_nonneg N)
        omega
      · subst hc0
        omega
      · have hle : 1 ≤ c := by omega
        have : (N : ℤ) * 1 ≤ (N : ℤ) * c :=
          mul_le_mul_of_nonneg_left hle (Int.ofNat_nonneg N)
        omega
    rw [geom_sum_eq hz1, hzN, sub_self, zero_div]

lemma parseval_core {s : List ℝ} (hs : s ≠ []) :
    ∑ k ∈ Finset.range s.length, Complex.normSq (∑ n ∈ Finset.range s.length,
      (s.getD n 0 : ℂ) * Complex.exp (-2 * Real.pi * Complex.I * k * n / s.length)) =
    s.length * ∑ n ∈ Finset.range s.length, (s.getD n 0) ^ 2 := by
  have hN : s.length ≠ 0 := fun hc => hs (List.length_eq_zero.mp hc)
  have hXw : ∀ k : ℕ, (∑ n ∈ Finset.range s.length,
      (s.getD n 0 : ℂ) * Complex.exp (-2 * Real.pi * Complex.I * k * n / s.length)) =
      ∑ n ∈ Finset.range s.length, (s.getD n 0 : ℂ) * dftOmega s.length ^ (k * n) := by
    intro k
    refine Finset.sum_congr rfl fun n _ => ?_
    rw [dftOmega_pow_nat]
    congr 2
    push_cast
    ring
  have hsplit : ∀ k : ℕ,
      (∑ n ∈ Finset.range s.length, (s.getD n 0 : ℂ) * dftOmega s.length ^ (k * n)) *
        (starRingEnd ℂ) (∑ n ∈ Finset.range s.length,
          (s.getD n 0 : ℂ) * dftOmega s.length ^ (k * n)) =
      ∑ n ∈ Finset.range s.length, ∑ m ∈ Finset.range s.length,
        (s.getD n 0 : ℂ) * (s.getD m 0 : ℂ) *
          dftOmega s.length ^ ((k : ℤ) * ((n : ℤ) - (m : ℤ))) := by
    intro k
    rw [map_sum, Finset.sum_mul_sum]
    refine Finset.sum_congr rfl fun n _ => Finset.sum_congr rfl fun m _ => ?_
    rw [map_mul, Complex.conj_ofReal, conj_dftOmega_pow]
    calc ((s.getD n 0 : ℂ) * dftOmega s.length ^ (k * n)) *
          ((s.getD m 0 : ℂ) * dftOmega s.length ^ (-((k * m : ℕ) : ℤ))) =
        ((s.getD n 0 : ℂ) * (s.getD m 0 : ℂ)) *
          (dftOmega s.length ^ (((k * n : ℕ) : ℤ)) *
            dftOmega s.length ^ (-((k * m : ℕ) : ℤ))) := by
          rw [zpow_natCast]
          ring
      _ = ((s.getD n 0 : ℂ) * (s.getD m 0 : ℂ)) *
          dftOmega s.length ^ ((((k * n : ℕ) : ℤ)) + -((k * m : ℕ) : ℤ)) := by
          rw [zpow_add₀ (dftOmega_ne_zero _)]
      _ = (s.getD n 0 : ℂ) * (s.getD m 0 : ℂ) *
          dftOmega s.length ^ ((k : ℤ) * ((n : ℤ) - (m : ℤ))) := by
          congr 2
          push_cast
          ring
  have main : ∑ k ∈ Finset.range s.length,
      ((Complex.normSq (∑ n ∈ Finset.range s.length,
        (s.getD n 0 : ℂ) * dftOmega s.length ^ (k * n)) : ℝ) : ℂ) =
      (s.length : ℂ) * ∑ n ∈ Finset.range s.length, ((s.getD n 0 : ℂ)) ^ 2 := by
    calc ∑ k ∈ Finset.range s.length,
        ((Complex.normSq (∑ n ∈ Finset.range s.length,
          (s.getD n 0 : ℂ) * dftOmega s.length ^ (k * n)) : ℝ) : ℂ) =
        ∑ k ∈ Finset.range s.length, ∑ n ∈ Finset.range s.length,
          ∑ m ∈ Finset.range s.length,
            (s.getD n 0 : ℂ) * (s.getD m 0 : ℂ) *
              dftOmega s.length ^ ((k : ℤ) * ((n : ℤ) - (m : ℤ))) := by
          refine Finset.sum_congr rfl fun k _ => ?_
          rw [← Complex.mul_conj, hsplit k]
      _ = ∑ n ∈ Finset.range s.length, ∑ m ∈ Finset.range s.length,
          ∑ k ∈ Finset.range s.length,
            (s.getD n 0 : ℂ) * (s.getD m 0 : ℂ) *
              dftOmega s.length ^ ((k : ℤ) * ((n : ℤ) - (m : ℤ))) := by
          rw [Finset.sum_comm]
          exact Finset.sum_congr rfl fun n _ => Finset.sum_comm
      _ = ∑ n ∈ Finset.range s.length, ∑ m ∈ Finset.range s.length,
          (s.getD n 0 : ℂ) * (s.getD m 0 : ℂ) *
            ∑ k ∈ Finset.range s.length,
              (dftOmega s.length ^ ((n : ℤ) - (m : ℤ))) ^ k := by
          refine Finset.sum_congr rfl fun n _ => Finset.sum_congr rfl fun m _ => ?_
          rw [Finset.mul_sum]
          refine Finset.sum_congr rfl fun k _ => ?_
          rw [mul_comm ((k : ℤ)) _, zpow_mul, zpow_natCast]
      _ = ∑ n ∈ Finset.range s.length,
          (s.getD n 0 : ℂ) * (s.getD n 0 : ℂ) * (s.length : ℂ) := by
          refine Finset.sum_congr rfl fun n hn => ?_
          have hnm : ∀ m ∈ Finset.range s.length,
              (s.getD n 0 : ℂ) * (s.getD m 0 : ℂ) *
                ∑ k ∈ Finset.range s.length,
                  (dftOmega s.length ^ ((n : ℤ) - (m : ℤ))) ^ k =
              if n = m then (s.getD n 0 : ℂ) * (s.getD m 0 : ℂ) * (s.length : ℂ) else 0 := by
            intro m hm
            rw [geom_orthogonality hN (Finset.mem_range.mp hn) (Finset.mem_range.mp hm),
              mul_ite, mul_zero]
          rw [Finset.sum_congr rfl hnm, Finset.sum_ite_eq (Finset.range s.length) n
            (fun m => (s.getD n 0 : ℂ) * (s.getD m 0 : ℂ) * (s.length : ℂ)), if_pos hn]
      _ = (s.length : ℂ) * ∑ n ∈ Finset.range s.length, ((s.getD n 0 : ℂ)) ^ 2 := by
          rw [Finset.mul_sum]
          refine Finset.sum_congr rfl fun n _ => ?_
          ring
  have hcast : ((∑ k ∈ Finset.range s.length, Complex.normSq
      (∑ n ∈ Finset.range s.length,
        (s.getD n 0 : ℂ) * Complex.exp (-2 * Real.pi * Complex.I * k * n / s.length)) : ℝ) : ℂ) =
      (((s.length : ℝ) * ∑ n ∈ Finset.range s.length, (s.getD n 0) ^ 2 : ℝ) : ℂ) := by
    rw [Complex.ofReal_sum]
    push_cast
    calc ∑ k ∈ Finset.range s.length,
        ((Complex.normSq (∑ n ∈ Finset.range s.length,
          (s.getD n 0 : ℂ) * Complex.exp (-2 * Real.pi * Complex.I * k * n / s.length)) : ℝ) : ℂ) =
        ∑ k ∈ Finset.range s.length,
          ((Complex.normSq (∑ n ∈ Finset.range s.length,
            (s.getD n 0 : ℂ) * dftOmega s.length ^ (k * n)) : ℝ) : ℂ) := by
          refine Finset.sum_congr rfl fun k _ => ?_
          rw [hXw k]
      _ = (s.length : ℂ) * ∑ n ∈ Finset.range s.length, ((s.getD n 0 : ℂ)) ^ 2 := main
  exact_mod_cast hcast

end ParsevalLemmas

lemma calcular_snd_perm (s : List ℝ) (dt : ℝ) :
    ((calcular_transformada_fourier s dt).2).Perm
      ((npFFT s).map fun z => z * (dt : ℂ)) := by
  show ((npArgsort (npFFTfreq s.length dt)).map fun i =>
    ((npFFT s).map fun z => z * (dt : ℂ)).getD i 0).Perm _
  have hperm := (npArgsort_perm (npFFTfreq s.length dt)).map
    (fun i => ((npFFT s).map fun z => z * (dt : ℂ)).getD i 0)
  rw [npFFTfreq_length] at hperm
  refine hperm.trans ?_
  have hlen : ((npFFT s).map fun z => z * (dt : ℂ)).length = s.length := by
    rw [List.length_map, npFFT_length]
  have hback := map_getD_range ((npFFT s).map fun z => z * (dt : ℂ)) 0
  rw [hlen] at hback
  rw [hback]

/-- C4 (amended): Parseval holds with the frequency-domain weight
`df = 1/(N·dt)` — the sum of `|spectrum[k]|²/(N·dt)` equals the time-domain
energy `Σ |s[n]|²·dt` exactly.  (With the weight `dt` of the claim as stated
it fails; see the counterexample.) -/
theorem c4_parseval (s : List ℝ) (dt : ℝ) (hs : s ≠ []) (hdt : 0 < dt) :
    (((calcular_transformada_fourier s dt).2).map fun z =>
      Complex.abs z ^ 2 * (1 / (s.length * dt))).sum =
    (s.map fun x => |x| ^ 2 * dt).sum := by
  have hN : s.length ≠ 0 := fun hc => hs (List.length_eq_zero.mp hc)
  have hNR : ((s.length : ℝ)) ≠ 0 := Nat.cast_ne_zero.mpr hN
  have hperm := (calcular_snd_perm s dt).map
    (fun z => Complex.abs z ^ 2 * (1 / (s.length * dt)))
  rw [hperm.sum_eq]
  have hLHS : (((npFFT s).map fun z => z * (dt : ℂ)).map fun z =>
      Complex.abs z ^ 2 * (1 / (s.length * dt))).sum =
      ∑ k ∈ Finset.range s.length,
        Complex.abs ((∑ n ∈ Finset.range s.length,
          (s.getD n 0 : ℂ) * Complex.exp (-2 * Real.pi * Complex.I * k * n / s.length)) *
            (dt : ℂ)) ^ 2 * (1 / (s.length * dt)) := by
    rw [npFFT, List.map_map, List.map_map]
    rfl
  rw [hLHS]
  have hRHS : (s.map fun x => |x| ^ 2 * dt).sum =
      ∑ n ∈ Finset.range s.length, (s.getD n 0) ^ 2 * dt := by
    conv_lhs => rw [← map_getD_range s 0]
    rw [List.map_map]
    show (∑ n ∈ Finset.range s.length, |s.getD n 0| ^ 2 * dt) = _
    refine Finset.sum_congr rfl fun n _ => ?_
    rw [sq_abs]
  rw [hRHS]
  have hterm : ∀ k ∈ Finset.range s.length,
      Complex.abs ((∑ n ∈ Finset.range s.length,
        (s.getD n 0 : ℂ) * Complex.exp (-2 * Real.pi * Complex.I * k * n / s.length)) *
          (dt : ℂ)) ^ 2 * (1 / (s.length * dt)) =
      Complex.normSq (∑ n ∈ Finset.range s.length,
        (s.getD n 0 : ℂ) * Complex.exp (-2 * Real.pi * Complex.I * k * n / s.length)) *
        (dt ^ 2 * (1 / (s.length * dt))) := by
    intro k _
    rw [map_mul Complex.abs, mul_pow, Complex.sq_abs, Complex.abs_ofReal, sq_abs]
    ring
  rw [Finset.sum_congr rfl hterm, ← Finset.sum_mul, parseval_core hs, ← Finset.sum_mul]
  field_simp
  ring

/-- Witness for C4's amended Parseval identity at the signal `[1, 0]`, `dt = 1`. -/
theorem c4_parseval_witness :
    ([1, 0] : List ℝ) ≠ [] ∧ (0 : ℝ) < 1 ∧
      (((calcular_transformada_fourier [1, 0] 1).2).map fun z =>
        Complex.abs z ^ 2 * (1 / ((([1, 0] : List ℝ).length : ℝ) * 1))).sum =
      (([1, 0] : List ℝ).map fun x => |x| ^ 2 * 1).sum :=
  ⟨by simp, by norm_num, c4_parseval [1, 0] 1 (by simp) (by norm_num)⟩

lemma npArgsort_singleton (x : ℝ) : npArgsort [x] = [0] := by
  have h := npArgsort_perm [x]
  rw [show ([x] : List ℝ).length = 1 from rfl, show List.range 1 = [0] from rfl] at h
  exact List.perm_singleton.mp h

/-- Counterexample to C4 as stated: for the signal `[1]` with `dt = 2` the
claimed sum `Σ |spectrum[k]|²·dt` is `8`, while the time-domain energy
`Σ |s[n]|²·dt` is `2`. -/
theorem c4_parseval_counterexample :
    (((calcular_transformada_fourier [1] 2).2).map fun z =>
      Complex.abs z ^ 2 * (2 : ℝ)).sum ≠
    (([1] : List ℝ).map fun x => |x| ^ 2 * 2).sum := by
  have hfreq : npFFTfreq ([1] : List ℝ).length 2 = [npFFTfreqVal 1 2 0] := rfl
  have hidx : npArgsort (npFFTfreq ([1] : List ℝ).length 2) = [0] := by
    rw [hfreq, npArgsort_singleton]
  have hout : (calcular_transformada_fourier [1] 2).2 =
      [((npFFT [1]).map fun z => z * ((2 : ℝ) : ℂ)).getD 0 0] := by
    show ((npArgsort (npFFTfreq ([1] : List ℝ).length 2)).map fun i =>
      ((npFFT [1]).map fun z => z * ((2 : ℝ) : ℂ)).getD i 0) = _
    rw [hidx]
    rfl
  have hval : ((npFFT [1]).map fun z => z * ((2 : ℝ) : ℂ)).getD 0 0 = 2 := by
    have h1 : npFFT [1] = [∑ n ∈ Finset.range 1,
        ((([1] : List ℝ).getD n 0 : ℝ) : ℂ) *
          Complex.exp (-2 * Real.pi * Complex.I * ((0 : ℕ) : ℂ) * (n : ℂ) /
            ((([1] : List ℝ).length : ℕ) : ℂ))] := rfl
    rw [h1]
    norm_num [List.getD, Finset.sum_range_one, Complex.exp_zero]
  rw [hout, hval]
  norm_num [Complex.abs_two]

section EscenarioConcreto

lemma mainGrid_length : mainGrid.length = 1000 := by
  rw [mainGrid, List.length_map, List.length_range]

lemma mainGrid_getD {n : ℕ} (hn : n < 1000) : mainGrid.getD n 0 = -5 + (n : ℝ) / 100 := by
  rw [mainGrid, List.getD_eq_getElem _ _ (by simpa using hn), List.getElem_map,
    List.getElem_range]

lemma pulso_length : (generar_pulso_rectangular mainGrid 2 1 0).length = 1000 := by
  rw [generar_pulso_rectangular, List.length_map, mainGrid_length]

lemma pulso_getD {n : ℕ} (hn : n < 1000) :
    (generar_pulso_rectangular mainGrid 2 1 0).getD n 0 =
      if 400 ≤ n ∧ n ≤ 600 then 1 else 0 := by
  rw [generar_pulso_rectangular,
    List.getD_eq_getElem _ _ (by rw [List.length_map, mainGrid_length]; exact hn),
    List.getElem_map, ← List.getD_eq_getElem mainGrid 0 (by rw [mainGrid_length]; exact hn),
    mainGrid_getD hn]
  refine if_congr ?_ rfl rfl
  constructor
  · rintro ⟨h1, h2⟩
    constructor
    · have h3 : (400 : ℝ) ≤ (n : ℝ) := by linarith
      exact_mod_cast h3
    · have h3 : (n : ℝ) ≤ 600 := by linarith
      exact_mod_cast h3
  · rintro ⟨h1, h2⟩
    have h1R : (400 : ℝ) ≤ (n : ℝ) := by exact_mod_cast h1
    have h2R : (n : ℝ) ≤ 600 := by exact_mod_cast h2
    constructor <;> linarith

lemma pulso_sum :
    ∑ n ∈ Finset.range 1000, (generar_pulso_rectangular mainGrid 2 1 0).getD n 0 = 201 := by
  have h1 : ∀ n ∈ Finset.range 1000,
      (generar_pulso_rectangular mainGrid 2 1 0).getD n 0 =
        if 400 ≤ n ∧ n ≤ 600 then (1 : ℝ) else 0 :=
    fun n hn => pulso_getD (Finset.mem_range.mp hn)
  rw [Finset.sum_congr rfl h1, Finset.sum_boole]
  have h2 : Finset.filter (fun n => 400 ≤ n ∧ n ≤ 600) (Finset.range 1000) =
      Finset.Icc 400 600 := by
    ext n
    simp only [Finset.mem_filter, Finset.mem_range, Finset.mem_Icc]
    omega
  rw [h2, Nat.card_Icc]
  norm_num

lemma pulso_dc :
    espectroVal (generar_pulso_rectangular mainGrid 2 1 0) (1 / 100) 0 = 201 / 100 := by
  rw [espectroVal, pulso_length]
  have hterm : ∀ n ∈ Finset.range 1000,
      ((generar_pulso_rectangular mainGrid 2 1 0).getD n 0 : ℂ) *
        Complex.exp (-2 * Real.pi * Complex.I * ((0 : ℕ) : ℂ) * (n : ℂ) / ((1000 : ℕ) : ℂ)) =
      ((generar_pulso_rectangular mainGrid 2 1 0).getD n 0 : ℂ) := by
    intro n _
    norm_num [Complex.exp_zero]
  rw [Finset.sum_congr rfl hterm, ← Complex.ofReal_sum, pulso_sum]
  push_cast
  norm_num

lemma c3_dc_aux : ∀ j,
    (calcular_transformada_fourier (generar_pulso_rectangular mainGrid 2 1 0)
      (1 / 100)).1.getD j 1 = 0 →
    Complex.abs ((calcular_transformada_fourier (generar_pulso_rectangular mainGrid 2 1 0)
      (1 / 100)).2.getD j 0) = 201 / 100 := by
  intro j hj
  have hplen := pulso_length
  have hj1000 : j < (generar_pulso_rectangular mainGrid 2 1 0).length := by
    by_contra hc
    push_neg at hc
    rw [List.getD_eq_default _ _ (by rw [calcular_fst_length]; exact hc)] at hj
    norm_num at hj
  have hj0 : (calcular_transformada_fourier (generar_pulso_rectangular mainGrid 2 1 0)
      (1 / 100)).1.getD j 0 = 0 := by
    rw [List.getD_eq_getElem _ _ (by rw [calcular_fst_length]; exact hj1000)]
    rw [List.getD_eq_getElem _ _ (by rw [calcular_fst_length]; exact hj1000)] at hj
    exact hj
  rw [calcular_fst_getD _ _ hj1000] at hj0
  have hzero : npFFTfreqVal (generar_pulso_rectangular mainGrid 2 1 0).length (1 / 100) 0 = 0 := by
    rw [npFFTfreqVal, if_pos (Nat.zero_le _)]
    norm_num
  have hk : sortIdx (generar_pulso_rectangular mainGrid 2 1 0).length (1 / 100) j = 0 := by
    refine npFFTfreqVal_injOn (show (1 / 100 : ℝ) ≠ 0 by norm_num) _ _ (sortIdx_lt _ hj1000)
      (by rw [hplen]; norm_num) ?_
    rw [hj0, hzero]
  rw [calcular_snd_getD _ _ hj1000, hk, pulso_dc,
    show ((201 : ℂ) / 100) = (((201 / 100 : ℝ)) : ℂ) by push_cast; ring,
    Complex.abs_ofReal]
  norm_num

lemma c3_exists_aux : ∃ j,
    (calcular_transformada_fourier (generar_pulso_rectangular mainGrid 2 1 0)
      (1 / 100)).1.getD j 1 = 0 := by
  obtain ⟨j, hj, hjk⟩ := sortIdx_surj (1 / 100 : ℝ)
    (show 0 < (generar_pulso_rectangular mainGrid 2 1 0).length by
      rw [pulso_length]; norm_num)
  refine ⟨j, ?_⟩
  rw [List.getD_eq_getElem _ _ (by rw [calcular_fst_length]; exact hj),
    ← List.getD_eq_getElem _ 0 (by rw [calcular_fst_length]; exact hj),
    calcular_fst_getD _ _ hj, hjk, npFFTfreqVal, if_pos (Nat.zero_le _)]
  norm_num

end EscenarioConcreto

/-- C3 (amended): on the `main` grid `np.arange(-5, 5, 0.01)` the rectangular
pulse of width 2, amplitude 1, centre 0 contains 201 samples in the closed
interval `[−1, 1]` (both endpoints included), so the spectrum magnitude at
frequency `f = 0` is `dt·201 = 2.01`, not `width·amplitude = 2`. -/
theorem c3_magnitud_dc :
    (∀ j, (calcular_transformada_fourier (generar_pulso_rectangular mainGrid 2 1 0)
        (1 / 100)).1.getD j 1 = 0 →
      Complex.abs ((calcular_transformada_fourier (generar_pulso_rectangular mainGrid 2 1 0)
        (1 / 100)).2.getD j 0) = 201 / 100) ∧
    ∃ j, (calcular_transformada_fourier (generar_pulso_rectangular mainGrid 2 1 0)
      (1 / 100)).1.getD j 1 = 0 :=
  ⟨c3_dc_aux, c3_exists_aux⟩

/-- Counterexample to C3 as stated: the spectrum magnitude at `f = 0` is not
`2` (it is `2.01`: the closed interval picks up 201 grid samples, not 200). -/
theorem c3_magnitud_dc_counterexample :
    ¬ ∀ j, (calcular_transformada_fourier (generar_pulso_rectangular mainGrid 2 1 0)
        (1 / 100)).1.getD j 1 = 0 →
      Complex.abs ((calcular_transformada_fourier (generar_pulso_rectangular mainGrid 2 1 0)
        (1 / 100)).2.getD j 0) = 2 := by
  intro hcl
  obtain ⟨j, hj⟩ := c3_exists_aux
  have h1 := c3_dc_aux j hj
  have h2 := hcl j hj
  rw [h1] at h2
  norm_num at h2

/-- C8: the frequency-scaling verifier's reported error is exactly the
spec-side quantity: the maximum absolute difference between
`|transform(scaled(s))|` and the prediction `(1/|a|)·interp(f, f·a, |transform(s)|)`
(zero fill outside range) — a comparison of magnitudes only; no phase enters. -/
theorem c8_escalamiento_refinamiento (t s : List ℝ) (dt factor : ℝ) :
    verificar_escalamiento_frecuencia t s dt factor =
      error_escalamiento_spec t s dt factor := by
  simp only [verificar_escalamiento_frecuencia, error_escalamiento_spec]
  rw [List.map_map, List.zipWith_map_left]
  rfl

/-- Witness for C8 at `t = [0, 1]`, `s = [1, 2]`, `dt = 1`, `factor = 2`. -/
theorem c8_escalamiento_refinamiento_witness :
    verificar_escalamiento_frecuencia [0, 1] [1, 2] 1 2 =
      error_escalamiento_spec [0, 1] [1, 2] 1 2 :=
  c8_escalamiento_refinamiento [0, 1] [1, 2] 1 2
